import Mathlib

/-! Complex convolution kernel (`Transceiver52M/sigproc/convolve.c`).

A shallow embedding of the convolution engine and the statements of its
specification that were checked against it.

Conventions of the embedding.

* Samples are exact: a `float` field is a rational number, `+`, `*` and `-`
  are the operations of `ℚ`. Rounding is not modelled. Infinities and NaN are
  modelled apart, in the namespace `IEEE`, which repeats the code over a value
  type that has them; on finite values the two agree (`mac_real_ofFinite`).
* A `cmplx *` pointer is a partial reader `Int → Option cmplx`: the sample at
  a given (possibly negative) offset from the pointer, `none` when that offset
  lies outside the storage the pointer points into. Dereferencing outside the
  storage is undefined behaviour in C; the embedding returns `none` for the
  whole call in that case.
* `int` is `Int`; the flag word is a bit set, a `Nat`.
* `fprintf(stderr, ...)` appends the line to the diagnostics of the result.
* The flag constant `CXVEC_FLG_REAL_ONLY` is declared in `convolve.h`; the
  functions that test it take it as their first argument.
-/

namespace Convolve

/-- Modelled from the spec: the sample type `cmplx` is declared in
`convolve.h`; the specification describes it as a scalar complex number with
a real and an imaginary field, and the code reads and writes exactly the
fields `real` and `imag`. -/
structure cmplx where
  real : ℚ
  imag : ℚ
deriving DecidableEq, Repr

/-- Modelled from the spec: `struct cxvec` is declared in `convolve.h`; the
specification lists `len` (logical element count), `flags` (a bit set),
`headroom` (count of valid samples immediately preceding `data[0]`) and
`data`. The storage of `headroom + len` samples is the list `storage`, and
`data[0]` is the sample at position `headroom` of it (see `cxvec.data`). -/
structure cxvec where
  len : Int
  flags : Nat
  headroom : Nat
  storage : List cmplx
deriving DecidableEq, Repr

/-- The pointer `v->data`: `v.data j` is `v->data[j]`, defined for the offsets
`j` that fall inside the storage (negative offsets reach into the headroom). -/
def cxvec.data (v : cxvec) : Int → Option cmplx := fun j =>
  if 0 ≤ (v.headroom : Int) + j then v.storage[((v.headroom : Int) + j).toNat]? else none

/-- The assignment `v->data[j] = s`; `none` when the offset is outside the storage. -/
def cxvec.store (v : cxvec) (j : Int) (s : cmplx) : Option cxvec :=
  if 0 ≤ (v.headroom : Int) + j ∧ ((v.headroom : Int) + j).toNat < v.storage.length then
    some { v with storage := v.storage.set ((v.headroom : Int) + j).toNat s }
  else none

/-- The call `memset(v->data, 0, n * sizeof(cmplx))`: the `n` samples from
`data[0]` on become `0.0f + 0.0f i`. A negative `n` converts to a huge
`size_t`, which no storage covers. -/
def cxvec.memset0 (v : cxvec) (n : Int) : Option cxvec :=
  if 0 ≤ n ∧ v.headroom + n.toNat ≤ v.storage.length then
    some { v with storage :=
      v.storage.take v.headroom ++ (List.replicate n.toNat (⟨0, 0⟩ : cmplx)
        ++ v.storage.drop (v.headroom + n.toNat)) }
  else none

/-- Generic multiply and accumulate complex-real: the new value of `*y`. -/
def mac_real (x h y : cmplx) : cmplx :=
  ⟨y.real + x.real * h.real, y.imag + x.imag * h.real⟩

/-- Generic multiply and accumulate complex-complex: the new value of `*y`. -/
def mac_cmplx (x h y : cmplx) : cmplx :=
  ⟨y.real + (x.real * h.real - x.imag * h.imag), y.imag + (x.real * h.imag + x.imag * h.real)⟩

/-- Generic vector complex-real multiply and accumulate:
`for (i = 0; i < len; i++) mac_real(&x[i], &h[i], y)`; the result is the
final value of `*y`, given its value `y` on entry. -/
def mac_real_vec_n (x h : Int → Option cmplx) (y : cmplx) (len : Int) : Option cmplx :=
  (List.range len.toNat).foldlM
    (fun (acc : cmplx) (i : Nat) => do
      let xi ← x (i : Int)
      let hi ← h (i : Int)
      pure (mac_real xi hi acc)) y

/-- Generic vector complex-complex multiply and accumulate. -/
def mac_cmplx_vec_n (x h : Int → Option cmplx) (y : cmplx) (len : Int) : Option cmplx :=
  (List.range len.toNat).foldlM
    (fun (acc : cmplx) (i : Nat) => do
      let xi ← x (i : Int)
      let hi ← h (i : Int)
      pure (mac_cmplx xi hi acc)) y

/-- What a call of `cxvec_convolve` leaves behind: the returned `int`, the
output vector, and the lines written to `stderr`. -/
structure Result where
  ret : Int
  out : cxvec
  stderr : List String
deriving DecidableEq, Repr

/-- One pass of the output loop of `cxvec_convolve`:
`(*mac_func)(&a[i - (h_vec->len - 1)], h, &c[i], h_vec->len)`. -/
def convolve_step (in_vec h_vec : cxvec) (c : cxvec) (i : Nat) : Option cxvec := do
  let y ← c.data (i : Int)
  let y ← mac_real_vec_n (fun k => in_vec.data ((i : Int) - (h_vec.len - 1) + k))
            (fun k => h_vec.data k) y h_vec.len
  c.store (i : Int) y

/-- Convolve two complex vectors (`cxvec_convolve`). The three vectors are
`restrict`: separate values here. `none` is undefined behaviour (an access
outside some storage). -/
def cxvec_convolve (CXVEC_FLG_REAL_ONLY : Nat) (in_vec h_vec out_vec : cxvec) :
    Option Result :=
  if in_vec.len < out_vec.len then
    some ⟨-1, out_vec, ["convolve: Invalid vector length\n"]⟩
  else if in_vec.flags &&& CXVEC_FLG_REAL_ONLY ≠ 0 then
    some ⟨-1, out_vec, ["convolve: Input data must be complex\n"]⟩
  else if ¬ (h_vec.flags &&& CXVEC_FLG_REAL_ONLY ≠ 0) then
    some ⟨-1, out_vec, ["convolve: Filter taps must be real\n"]⟩
  else do
    let c ← out_vec.memset0 out_vec.len
    let c ← (List.range out_vec.len.toNat).foldlM (convolve_step in_vec h_vec) c
    some ⟨(out_vec.len.toNat : Int), c, []⟩

/-- What a call of `single_convolve` leaves behind: the returned `int`, the
sample `*out`, and the lines written to `stderr`. -/
structure SingleResult where
  ret : Int
  out : cmplx
  stderr : List String
deriving DecidableEq, Repr

/-- Single output convolution (`single_convolve`): `in_ptr` is the pointer
`in`, `out` the value of `*out` on entry. -/
def single_convolve (CXVEC_FLG_REAL_ONLY : Nat) (in_ptr : Int → Option cmplx)
    (h : cxvec) (out : cmplx) : Option SingleResult :=
  if ¬ (h.flags &&& CXVEC_FLG_REAL_ONLY ≠ 0) then
    some ⟨-1, out, ["convolve: Filter taps must be real\n"]⟩
  else do
    let y ← mac_real_vec_n (fun k => in_ptr (-(h.len - 1) + k)) (fun k => h.data k)
              (⟨0, 0⟩ : cmplx) h.len
    some ⟨1, y, []⟩

/-- A vector as the owning stage constructs it: a non-negative length and a
storage of exactly `headroom + len` samples. -/
def cxvec.wf (v : cxvec) : Prop :=
  0 ≤ v.len ∧ (v.storage.length : Int) = (v.headroom : Int) + v.len

instance (v : cxvec) : Decidable v.wf := by
  unfold cxvec.wf; infer_instance

/-- The sample `v->data[j]` where it exists, `0 + 0i` elsewhere. -/
def cxvec.sample (v : cxvec) (j : Int) : cmplx := (v.data j).getD ⟨0, 0⟩

/-- The kernel call of output index `i` on a zeroed accumulator:
`mac_real_vec_n(&a[i - (h_vec->len - 1)], h, y, h_vec->len)` with `*y = 0`. -/
def convolve_at (in_vec h_vec : cxvec) (i : Nat) : Option cmplx :=
  mac_real_vec_n (fun k => in_vec.data ((i : Int) - (h_vec.len - 1) + k))
    (fun k => h_vec.data k) ⟨0, 0⟩ h_vec.len

/-- The input of the moving-average scenario: five samples `1, 1, 0, 1, 1`
(imaginary parts `0`) behind one headroom sample `0`. -/
def scenario_in (flags : Nat) : cxvec :=
  ⟨5, flags, 1, [⟨0, 0⟩, ⟨1, 0⟩, ⟨1, 0⟩, ⟨0, 0⟩, ⟨1, 0⟩, ⟨1, 0⟩]⟩

/-- The taps of the moving-average scenario: `0.5, 0.5`. -/
def scenario_taps (flags : Nat) : cxvec :=
  ⟨2, flags, 0, [⟨1/2, 0⟩, ⟨1/2, 0⟩]⟩

/-- An output vector of five samples pre-filled with a sentinel pattern. -/
def scenario_out : cxvec :=
  ⟨5, 0, 0, [⟨7, -7⟩, ⟨7, -7⟩, ⟨7, -7⟩, ⟨7, -7⟩, ⟨7, -7⟩]⟩

/-- Sum of two samples, component by component. -/
def cmplx.add (a b : cmplx) : cmplx := ⟨a.real + b.real, a.imag + b.imag⟩

/-- A sample multiplied by a real scalar. -/
def cmplx.scale (c : ℚ) (a : cmplx) : cmplx := ⟨c * a.real, c * a.imag⟩

/-- Sample-wise sum of two vectors of equal shape: the shape of `x`, the
storage (headroom included) added sample by sample. -/
def cxvec.add (x y : cxvec) : cxvec :=
  { x with storage := List.zipWith cmplx.add x.storage y.storage }

/-- A vector multiplied by a real scalar: every sample of the storage
(headroom included) scaled. -/
def cxvec.scale (c : ℚ) (x : cxvec) : cxvec :=
  { x with storage := x.storage.map (cmplx.scale c) }

/-- A second input of the shape of `scenario_in`, with non-zero imaginary parts. -/
def scenario_in2 (flags : Nat) : cxvec :=
  ⟨5, flags, 1, [⟨2, 1⟩, ⟨0, 3⟩, ⟨-1, 0⟩, ⟨4, 4⟩, ⟨1/3, 0⟩, ⟨0, -2⟩]⟩

/-- Taps with the real parts of `scenario_taps` and other imaginary parts. -/
def scenario_taps2 (flags : Nat) : cxvec :=
  ⟨2, flags, 0, [⟨1/2, 5⟩, ⟨1/2, -3⟩]⟩

/-! ## The same code over `float` values with infinities and NaN

The definitions above take every sample for a finite number. The namespace
`IEEE` repeats the code of `convolve.c` over a value type that also has the
non-finite values of a `float`, to settle what the code does on them. -/

namespace IEEE

/-- A `float` value: a finite number (kept exact, rounding and overflow of
finite results are not modelled, and the two signed zeros are one value),
an infinity with its sign (`inf true` is `-inf`), or NaN. -/
inductive float where
  | fin (q : ℚ)
  | inf (neg : Bool)
  | nan
deriving DecidableEq, Repr

/-- The product `a * b` of two `float`s: `0 * ±inf` is NaN, NaN propagates,
an infinite product takes the sign of its factors. -/
def float.mul : float → float → float
  | .fin a, .fin b => .fin (a * b)
  | .fin a, .inf s => if a = 0 then .nan else .inf (if a < 0 then !s else s)
  | .inf s, .fin b => if b = 0 then .nan else .inf (if b < 0 then !s else s)
  | .inf s, .inf t => .inf (s != t)
  | .nan, _ => .nan
  | _, .nan => .nan

/-- The sum `a + b` of two `float`s: `inf + (-inf)` is NaN, NaN propagates. -/
def float.add : float → float → float
  | .fin a, .fin b => .fin (a + b)
  | .fin _, .inf s => .inf s
  | .inf s, .fin _ => .inf s
  | .inf s, .inf t => if s = t then .inf s else .nan
  | .nan, _ => .nan
  | _, .nan => .nan

/-- The sample type `cmplx` with `float` fields. -/
structure cmplx where
  real : float
  imag : float
deriving DecidableEq, Repr

/-- The vector `struct cxvec` over `float` samples, laid out as `Convolve.cxvec`. -/
structure cxvec where
  len : Int
  flags : Nat
  headroom : Nat
  storage : List cmplx
deriving DecidableEq, Repr

/-- The pointer `v->data`. -/
def cxvec.data (v : cxvec) : Int → Option cmplx := fun j =>
  if 0 ≤ (v.headroom : Int) + j then v.storage[((v.headroom : Int) + j).toNat]? else none

/-- The assignment `v->data[j] = s`. -/
def cxvec.store (v : cxvec) (j : Int) (s : cmplx) : Option cxvec :=
  if 0 ≤ (v.headroom : Int) + j ∧ ((v.headroom : Int) + j).toNat < v.storage.length then
    some { v with storage := v.storage.set ((v.headroom : Int) + j).toNat s }
  else none

/-- The call `memset(v->data, 0, n * sizeof(cmplx))`. -/
def cxvec.memset0 (v : cxvec) (n : Int) : Option cxvec :=
  if 0 ≤ n ∧ v.headroom + n.toNat ≤ v.storage.length then
    some { v with storage :=
      v.storage.take v.headroom ++ (List.replicate n.toNat (⟨.fin 0, .fin 0⟩ : cmplx)
        ++ v.storage.drop (v.headroom + n.toNat)) }
  else none

/-- Generic multiply and accumulate complex-real:
`y->real += x->real * h->real; y->imag += x->imag * h->real`. -/
def mac_real (x h y : cmplx) : cmplx :=
  ⟨y.real.add (x.real.mul h.real), y.imag.add (x.imag.mul h.real)⟩

/-- Generic vector complex-real multiply and accumulate. -/
def mac_real_vec_n (x h : Int → Option cmplx) (y : cmplx) (len : Int) : Option cmplx :=
  (List.range len.toNat).foldlM
    (fun (acc : cmplx) (i : Nat) => do
      let xi ← x (i : Int)
      let hi ← h (i : Int)
      pure (mac_real xi hi acc)) y

/-- What a call of `cxvec_convolve` leaves behind. -/
structure Result where
  ret : Int
  out : cxvec
  stderr : List String
deriving DecidableEq, Repr

/-- One pass of the output loop of `cxvec_convolve`. -/
def convolve_step (in_vec h_vec : cxvec) (c : cxvec) (i : Nat) : Option cxvec := do
  let y ← c.data (i : Int)
  let y ← mac_real_vec_n (fun k => in_vec.data ((i : Int) - (h_vec.len - 1) + k))
            (fun k => h_vec.data k) y h_vec.len
  c.store (i : Int) y

/-- Convolve two complex vectors (`cxvec_convolve`) over `float` samples. -/
def cxvec_convolve (CXVEC_FLG_REAL_ONLY : Nat) (in_vec h_vec out_vec : cxvec) :
    Option Result :=
  if in_vec.len < out_vec.len then
    some ⟨-1, out_vec, ["convolve: Invalid vector length\n"]⟩
  else if in_vec.flags &&& CXVEC_FLG_REAL_ONLY ≠ 0 then
    some ⟨-1, out_vec, ["convolve: Input data must be complex\n"]⟩
  else if ¬ (h_vec.flags &&& CXVEC_FLG_REAL_ONLY ≠ 0) then
    some ⟨-1, out_vec, ["convolve: Filter taps must be real\n"]⟩
  else do
    let c ← out_vec.memset0 out_vec.len
    let c ← (List.range out_vec.len.toNat).foldlM (convolve_step in_vec h_vec) c
    some ⟨(out_vec.len.toNat : Int), c, []⟩

/-- A finite sample of the exact model as a `float` sample. -/
def ofFinite (a : Convolve.cmplx) : cmplx := ⟨.fin a.real, .fin a.imag⟩

end IEEE

/-! ## Memory lemmas -/

theorem store_shape {v v' : cxvec} {j : Int} {s : cmplx} (h : v.store j s = some v') :
    v'.len = v.len ∧ v'.flags = v.flags ∧ v'.headroom = v.headroom
      ∧ v'.storage.length = v.storage.length := by
  unfold cxvec.store at h
  split at h
  · cases h; simp
  · cases h

theorem store_data {v v' : cxvec} {j : Int} {s : cmplx} (h : v.store j s = some v')
    (j' : Int) : v'.data j' = if j' = j then some s else v.data j' := by
  unfold cxvec.store at h
  split at h
  next hb =>
    cases h
    obtain ⟨h0, h1⟩ := hb
    unfold cxvec.data
    by_cases hj : j' = j
    · subst hj
      simp [h0, h1]
    · simp only [hj, if_false]
      by_cases h0' : 0 ≤ (v.headroom : Int) + j'
      · simp only [h0', if_true]
        rw [List.getElem?_set_ne]
        intro he
        apply hj
        have := Int.toNat_of_nonneg h0
        have := Int.toNat_of_nonneg h0'
        omega
      · simp [h0']
  next => cases h

theorem store_of_data {v : cxvec} {j : Int} {y : cmplx} (h : v.data j = some y) (s : cmplx) :
    ∃ v', v.store j s = some v' := by
  unfold cxvec.data at h
  unfold cxvec.store
  split at h
  next h0 =>
    have hlt : ((v.headroom : Int) + j).toNat < v.storage.length := by
      by_contra hc
      rw [List.getElem?_eq_none (by omega)] at h
      cases h
    exact ⟨_, by rw [if_pos ⟨h0, hlt⟩]⟩
  next => cases h

theorem memset0_shape {v v' : cxvec} {n : Int} (h : v.memset0 n = some v') :
    v'.len = v.len ∧ v'.flags = v.flags ∧ v'.headroom = v.headroom
      ∧ v'.storage.length = v.storage.length := by
  unfold cxvec.memset0 at h
  split at h
  next hb =>
    cases h
    simp
    omega
  next => cases h

theorem memset0_data {v v' : cxvec} {n : Int} (h : v.memset0 n = some v') (j : Int) :
    v'.data j = if 0 ≤ j ∧ j < n then some ⟨0, 0⟩ else v.data j := by
  unfold cxvec.memset0 at h
  split at h
  next hb =>
    cases h
    obtain ⟨h0, h1⟩ := hb
    unfold cxvec.data
    simp only
    by_cases hj : 0 ≤ (v.headroom : Int) + j
    · simp only [hj, if_true]
      obtain ⟨p, hp⟩ := Int.eq_ofNat_of_zero_le hj
      obtain ⟨m, hm⟩ := Int.eq_ofNat_of_zero_le h0
      subst hm
      rw [hp]
      simp only [Int.toNat_ofNat] at h1 ⊢
      by_cases hlt : p < v.headroom
      · rw [List.getElem?_append_left (by simp; omega)]
        rw [if_neg (by omega)]
        simp [List.getElem?_take, hlt]
      · rw [List.getElem?_append_right (by simp; omega)]
        simp only [List.length_take]
        have hmin : min v.headroom v.storage.length = v.headroom := by omega
        rw [hmin]
        by_cases hlt2 : p - v.headroom < m
        · rw [List.getElem?_append_left (by simp; omega)]
          rw [if_pos (by omega)]
          simp [List.getElem?_replicate, hlt2]
        · rw [List.getElem?_append_right (by simp; omega)]
          rw [if_neg (by omega)]
          simp only [List.length_replicate, List.getElem?_drop]
          congr 1
          omega
    · simp only [hj, if_false]
      rw [if_neg (by omega)]
  next => cases h

/-! ## The multiply-accumulate kernel -/

theorem foldlM_range_succ {α : Type} (f : α → Nat → Option α) (a : α) (n : Nat) :
    (List.range (n + 1)).foldlM f a = ((List.range n).foldlM f a).bind (fun b => f b n) := by
  rw [List.range_succ, List.foldlM_append]
  cases (List.range n).foldlM f a <;> simp

theorem mac_real_vec_n_sum (x h : Int → Option cmplx) (y : cmplx) (len : Int)
    (hx : ∀ k : Nat, k < len.toNat → ∃ a, x k = some a)
    (hh : ∀ k : Nat, k < len.toNat → ∃ b, h k = some b) :
    mac_real_vec_n x h y len = some
      ⟨y.real + ∑ k ∈ Finset.range len.toNat, ((x k).getD ⟨0, 0⟩).real * ((h k).getD ⟨0, 0⟩).real,
       y.imag + ∑ k ∈ Finset.range len.toNat, ((x k).getD ⟨0, 0⟩).imag * ((h k).getD ⟨0, 0⟩).real⟩ := by
  unfold mac_real_vec_n
  generalize len.toNat = n at hx hh
  induction n with
  | zero => simp
  | succ n ih =>
    rw [foldlM_range_succ, ih (fun k hk => hx k (by omega)) (fun k hk => hh k (by omega))]
    obtain ⟨a, ha⟩ := hx n (by omega)
    obtain ⟨b, hb⟩ := hh n (by omega)
    simp only [Option.bind_eq_bind, Option.some_bind, ha, hb, Option.pure_def, mac_real,
      Finset.sum_range_succ, Option.getD_some, Option.some.injEq, cmplx.mk.injEq]
    constructor <;> ring

theorem mac_real_vec_n_none (x h : Int → Option cmplx) (y : cmplx) (len : Int)
    (hlen : 0 < len) (hx : x 0 = none) : mac_real_vec_n x h y len = none := by
  unfold mac_real_vec_n
  obtain ⟨n, hn⟩ : ∃ n, len.toNat = n + 1 := ⟨len.toNat - 1, by omega⟩
  rw [hn, List.range_succ_eq_map, List.foldlM_cons]
  simp [hx]

/-! ## The output loop -/

theorem convolve_loop_inv (in_vec h_vec c0 : cxvec) (N : Nat)
    (hz : ∀ i : Nat, i < N → c0.data i = some ⟨0, 0⟩) :
    ∀ n : Nat, n ≤ N → ∀ c : cxvec,
      (List.range n).foldlM (convolve_step in_vec h_vec) c0 = some c →
      (c.len = c0.len ∧ c.flags = c0.flags ∧ c.headroom = c0.headroom
        ∧ c.storage.length = c0.storage.length)
      ∧ (∀ i : Nat, i < n → c.data i = convolve_at in_vec h_vec i
            ∧ ∃ v, convolve_at in_vec h_vec i = some v)
      ∧ (∀ j : Int, ¬ (0 ≤ j ∧ j < n) → c.data j = c0.data j) := by
  intro n
  induction n with
  | zero =>
    intro _ c hc
    simp at hc
    subst hc
    simp
  | succ n ih =>
    intro hn c' hc'
    rw [foldlM_range_succ] at hc'
    cases hloop : (List.range n).foldlM (convolve_step in_vec h_vec) c0 with
    | none => rw [hloop] at hc'; cases hc'
    | some c =>
      rw [hloop] at hc'
      simp only [Option.some_bind] at hc'
      obtain ⟨hshape, hdone, hrest⟩ := ih (by omega) c hloop
      have hcn : c.data (n : Int) = some ⟨0, 0⟩ := by
        rw [hrest n (by omega)]
        exact hz n (by omega)
      unfold convolve_step at hc'
      rw [hcn] at hc'
      simp only [Option.bind_eq_bind, Option.some_bind] at hc'
      cases hmac : convolve_at in_vec h_vec n with
      | none =>
        unfold convolve_at at hmac
        rw [hmac] at hc'
        cases hc'
      | some y =>
        have hmac' := hmac
        unfold convolve_at at hmac'
        rw [hmac'] at hc'
        simp only [Option.some_bind] at hc'
        obtain ⟨s1, s2, s3, s4⟩ := store_shape hc'
        obtain ⟨t1, t2, t3, t4⟩ := hshape
        refine ⟨⟨by rw [s1, t1], by rw [s2, t2], by rw [s3, t3], by rw [s4, t4]⟩, ?_, ?_⟩
        · intro i hi
          rw [store_data hc']
          by_cases hin : i = n
          · subst hin
            simp [hmac]
          · rw [if_neg (by omega)]
            exact hdone i (by omega)
        · intro j hj
          rw [store_data hc', if_neg (by omega)]
          exact hrest j (by omega)

theorem convolve_loop_total (in_vec h_vec c0 : cxvec) (N : Nat)
    (hz : ∀ i : Nat, i < N → c0.data i = some ⟨0, 0⟩)
    (hk : ∀ i : Nat, i < N → ∃ v, convolve_at in_vec h_vec i = some v) :
    ∀ n : Nat, n ≤ N → ∃ c : cxvec,
      (List.range n).foldlM (convolve_step in_vec h_vec) c0 = some c := by
  intro n
  induction n with
  | zero => intro _; exact ⟨c0, by simp⟩
  | succ n ih =>
    intro hn
    obtain ⟨c, hc⟩ := ih (by omega)
    obtain ⟨_, _, hrest⟩ := convolve_loop_inv in_vec h_vec c0 N hz n (by omega) c hc
    have hcn : c.data (n : Int) = some ⟨0, 0⟩ := by
      rw [hrest n (by omega)]
      exact hz n (by omega)
    obtain ⟨v, hv⟩ := hk n (by omega)
    obtain ⟨c', hc'⟩ := store_of_data hcn v
    refine ⟨c', ?_⟩
    rw [foldlM_range_succ, hc]
    simp only [Option.some_bind]
    unfold convolve_step
    rw [hcn]
    unfold convolve_at at hv
    simp only [Option.bind_eq_bind, Option.some_bind, hv]
    exact hc'

/-! ## The whole call -/

theorem wf_data {v : cxvec} (hv : v.wf) {j : Int} (h0 : -(v.headroom : Int) ≤ j)
    (h1 : j < v.len) : ∃ a, v.data j = some a := by
  obtain ⟨_, hlen⟩ := hv
  unfold cxvec.data
  rw [if_pos (by omega)]
  have hlt : ((v.headroom : Int) + j).toNat < v.storage.length := by omega
  exact ⟨v.storage[((v.headroom : Int) + j).toNat], List.getElem?_eq_getElem hlt⟩

theorem sample_of_data {v : cxvec} {j : Int} {a : cmplx} (h : v.data j = some a) :
    v.sample j = a := by
  simp [cxvec.sample, h]

theorem convolve_at_sum {in_vec h_vec : cxvec} (hin : in_vec.wf) (hh : h_vec.wf)
    (hhead : h_vec.len - 1 ≤ in_vec.headroom) {i : Nat} (hi : (i : Int) < in_vec.len) :
    convolve_at in_vec h_vec i = some
      ⟨∑ k ∈ Finset.range h_vec.len.toNat,
          (in_vec.sample ((i : Int) - (h_vec.len - 1) + k)).real * (h_vec.sample k).real,
       ∑ k ∈ Finset.range h_vec.len.toNat,
          (in_vec.sample ((i : Int) - (h_vec.len - 1) + k)).imag * (h_vec.sample k).real⟩ := by
  unfold convolve_at
  rw [mac_real_vec_n_sum]
  · simp [cxvec.sample]
  · intro k hk
    exact wf_data hin (by omega) (by omega)
  · intro k hk
    exact wf_data hh (by omega) (by omega)

theorem cxvec_convolve_success {M : Nat} {in_vec h_vec out_vec : cxvec} {r : Result}
    (hr : cxvec_convolve M in_vec h_vec out_vec = some r) (hret : r.ret ≠ -1) :
    (out_vec.len ≤ in_vec.len ∧ in_vec.flags &&& M = 0 ∧ h_vec.flags &&& M ≠ 0
      ∧ 0 ≤ out_vec.len ∧ r.ret = out_vec.len ∧ r.stderr = [])
    ∧ (r.out.len = out_vec.len ∧ r.out.flags = out_vec.flags
        ∧ r.out.headroom = out_vec.headroom
        ∧ r.out.storage.length = out_vec.storage.length)
    ∧ (∀ i : Nat, (i : Int) < out_vec.len → r.out.data i = convolve_at in_vec h_vec i
          ∧ ∃ v, convolve_at in_vec h_vec i = some v)
    ∧ (∀ j : Int, ¬ (0 ≤ j ∧ j < out_vec.len) → r.out.data j = out_vec.data j) := by
  unfold cxvec_convolve at hr
  split at hr
  · cases hr; exact absurd rfl hret
  split at hr
  · cases hr; exact absurd rfl hret
  split at hr
  · cases hr; exact absurd rfl hret
  next h1 h2 h3 =>
    cases hm : out_vec.memset0 out_vec.len with
    | none => rw [hm] at hr; cases hr
    | some c0 =>
      rw [hm] at hr
      simp only [Option.bind_eq_bind, Option.some_bind] at hr
      cases hl : (List.range out_vec.len.toNat).foldlM (convolve_step in_vec h_vec) c0 with
      | none => rw [hl] at hr; cases hr
      | some c =>
        rw [hl] at hr
        simp only [Option.some_bind, Option.some.injEq] at hr
        subst hr
        have hnn : 0 ≤ out_vec.len := by
          unfold cxvec.memset0 at hm
          split at hm
          next hb => exact hb.1
          next => cases hm
        have hz : ∀ i : Nat, i < out_vec.len.toNat → c0.data i = some ⟨0, 0⟩ := by
          intro i hi
          rw [memset0_data hm, if_pos (by omega)]
        obtain ⟨hshape, hdone, hrest⟩ :=
          convolve_loop_inv in_vec h_vec c0 _ hz _ (le_refl _) c hl
        obtain ⟨m1, m2, m3, m4⟩ := memset0_shape hm
        obtain ⟨t1, t2, t3, t4⟩ := hshape
        refine ⟨⟨by omega, by simpa using h2, by simpa using h3, hnn, by simp; omega, rfl⟩,
          ⟨by rw [t1, m1], by rw [t2, m2], by rw [t3, m3], by rw [t4, m4]⟩, ?_, ?_⟩
        · intro i hi
          exact hdone i (by omega)
        · intro j hj
          simp only
          rw [hrest j (by omega), memset0_data hm, if_neg hj]

theorem cxvec_convolve_total {M : Nat} {in_vec h_vec out_vec : cxvec}
    (hlen : out_vec.len ≤ in_vec.len) (hfi : in_vec.flags &&& M = 0)
    (hfh : h_vec.flags &&& M ≠ 0) (hnn : 0 ≤ out_vec.len)
    (hst : (out_vec.headroom : Int) + out_vec.len ≤ out_vec.storage.length)
    (hk : ∀ i : Nat, (i : Int) < out_vec.len → ∃ v, convolve_at in_vec h_vec i = some v) :
    ∃ r, cxvec_convolve M in_vec h_vec out_vec = some r ∧ r.ret = out_vec.len := by
  have hmem : ∃ c0, out_vec.memset0 out_vec.len = some c0 := by
    unfold cxvec.memset0
    rw [if_pos ⟨hnn, by omega⟩]
    exact ⟨_, rfl⟩
  obtain ⟨c0, hm⟩ := hmem
  have hz : ∀ i : Nat, i < out_vec.len.toNat → c0.data i = some ⟨0, 0⟩ := by
    intro i hi
    rw [memset0_data hm, if_pos (by omega)]
  obtain ⟨c, hc⟩ := convolve_loop_total in_vec h_vec c0 out_vec.len.toNat hz
    (fun i hi => hk i (by omega)) _ (le_refl _)
  refine ⟨⟨(out_vec.len.toNat : Int), c, []⟩, ?_, by simp; omega⟩
  unfold cxvec_convolve
  rw [if_neg (by omega), if_neg (by simp [hfi]), if_neg (by simpa using hfh), hm]
  simp only [Option.bind_eq_bind, Option.some_bind, hc]

theorem cxvec_convolve_closed_form {M : Nat} {in_vec taps out_vec : cxvec}
    (hlen : out_vec.len ≤ in_vec.len) (hfi : in_vec.flags &&& M = 0)
    (hft : taps.flags &&& M ≠ 0) (hin : in_vec.wf) (htaps : taps.wf) (hout : out_vec.wf)
    (hhead : taps.len - 1 ≤ in_vec.headroom) :
    ∃ r, cxvec_convolve M in_vec taps out_vec = some r ∧ r.ret = out_vec.len
      ∧ ∀ i : Int, 0 ≤ i → i < out_vec.len → r.out.data i = some
          ⟨∑ k ∈ Finset.range taps.len.toNat,
              (in_vec.sample (i - (taps.len - 1) + k)).real * (taps.sample k).real,
           ∑ k ∈ Finset.range taps.len.toNat,
              (in_vec.sample (i - (taps.len - 1) + k)).imag * (taps.sample k).real⟩ := by
  obtain ⟨r, hr, hret⟩ := cxvec_convolve_total hlen hfi hft hout.1 (le_of_eq hout.2.symm)
    (fun i hi => ⟨_, convolve_at_sum hin htaps hhead (by omega)⟩)
  refine ⟨r, hr, hret, ?_⟩
  intro i h0 h1
  obtain ⟨_, _, hdone, _⟩ := cxvec_convolve_success hr (by have := hout.1; omega)
  obtain ⟨n, rfl⟩ := Int.eq_ofNat_of_zero_le h0
  rw [(hdone n h1).1]
  exact convolve_at_sum hin htaps hhead (by omega)

theorem cxvec_convolve_undefined {M : Nat} {in_vec taps out_vec : cxvec}
    (hlen : out_vec.len ≤ in_vec.len) (hfi : in_vec.flags &&& M = 0)
    (hft : taps.flags &&& M ≠ 0) (hpos : 0 < out_vec.len)
    (hhead : (in_vec.headroom : Int) < taps.len - 1) :
    cxvec_convolve M in_vec taps out_vec = none := by
  unfold cxvec_convolve
  rw [if_neg (by omega), if_neg (by simp [hfi]), if_neg (by simpa using hft)]
  cases hm : out_vec.memset0 out_vec.len with
  | none => rfl
  | some c0 =>
    simp only [Option.bind_eq_bind, Option.some_bind]
    obtain ⟨n, hn⟩ : ∃ n, out_vec.len.toNat = n + 1 := ⟨out_vec.len.toNat - 1, by omega⟩
    have hstep : convolve_step in_vec taps c0 0 = none := by
      unfold convolve_step
      cases c0.data ((0 : Nat) : Int) with
      | none => rfl
      | some y =>
        simp only [Option.bind_eq_bind, Option.some_bind]
        rw [mac_real_vec_n_none _ _ _ _ (by omega)]
        · rfl
        · unfold cxvec.data
          rw [if_neg (by push_cast; omega)]
    rw [hn, List.range_succ_eq_map, List.foldlM_cons, hstep]
    rfl

/-! ## Kernels compared -/

theorem foldlM_range_congr {α : Type} (f g : α → Nat → Option α) (n : Nat)
    (hfg : ∀ i : Nat, i < n → ∀ a, f a i = g a i) (a : α) :
    (List.range n).foldlM f a = (List.range n).foldlM g a := by
  induction n with
  | zero => rfl
  | succ n ih =>
    rw [foldlM_range_succ, foldlM_range_succ, ih (fun i hi => hfg i (by omega))]
    cases (List.range n).foldlM g a with
    | none => rfl
    | some b => exact hfg n (by omega) b

theorem mac_real_vec_n_congr (x h1 h2 : Int → Option cmplx) (y : cmplx) (len : Int)
    (hre : ∀ k : Nat, k < len.toNat → (h1 k).map cmplx.real = (h2 k).map cmplx.real) :
    mac_real_vec_n x h1 y len = mac_real_vec_n x h2 y len := by
  unfold mac_real_vec_n
  apply foldlM_range_congr
  intro i hi acc
  have hk := hre i hi
  cases hx : x (i : Int) with
  | none => rfl
  | some xi =>
    cases hb1 : h1 (i : Int) with
    | none =>
      cases hb2 : h2 (i : Int) with
      | none => rfl
      | some b2 => rw [hb1, hb2] at hk; cases hk
    | some b1 =>
      cases hb2 : h2 (i : Int) with
      | none => rw [hb1, hb2] at hk; cases hk
      | some b2 =>
        rw [hb1, hb2] at hk
        simp only [Option.map_some', Option.some.injEq] at hk
        simp [mac_real, hk]

theorem mac_cmplx_vec_n_real_taps (x h : Int → Option cmplx) (y : cmplx) (len : Int)
    (him : ∀ k : Nat, k < len.toNat → ∀ b, h k = some b → b.imag = 0) :
    mac_cmplx_vec_n x h y len = mac_real_vec_n x h y len := by
  unfold mac_cmplx_vec_n mac_real_vec_n
  apply foldlM_range_congr
  intro i hi acc
  cases hx : x (i : Int) with
  | none => rfl
  | some xi =>
    cases hb : h (i : Int) with
    | none => rfl
    | some b =>
      have h0 := him i hi b hb
      simp [mac_cmplx, mac_real, h0]

theorem single_convolve_at {M : Nat} (in_vec taps : cxvec) (i : Nat) (y0 : cmplx)
    (hft : taps.flags &&& M ≠ 0) :
    single_convolve M (fun k => in_vec.data ((i : Int) + k)) taps y0
      = (convolve_at in_vec taps i).bind (fun y => some ⟨1, y, []⟩) := by
  unfold single_convolve convolve_at
  rw [if_neg (by simpa using hft)]
  have hx : (fun k : Int => in_vec.data ((i : Int) + (-(taps.len - 1) + k)))
      = (fun k : Int => in_vec.data ((i : Int) - (taps.len - 1) + k)) := by
    funext k
    congr 1
    ring
  rw [hx]
  rfl

theorem convolve_step_congr (in_vec taps1 taps2 : cxvec) (hlen : taps1.len = taps2.len)
    (hre : ∀ k : Int, 0 ≤ k → k < taps1.len →
      (taps1.data k).map cmplx.real = (taps2.data k).map cmplx.real) :
    convolve_step in_vec taps1 = convolve_step in_vec taps2 := by
  funext c i
  unfold convolve_step
  cases c.data (i : Int) with
  | none => rfl
  | some y =>
    simp only [Option.bind_eq_bind, Option.some_bind]
    rw [mac_real_vec_n_congr _ (fun k => taps1.data k) (fun k => taps2.data k) y taps1.len
      (fun k hk => hre k (by omega) (by omega)), hlen]

theorem cxvec_convolve_error_out {M : Nat} {in_vec h_vec out_vec : cxvec} {r : Result}
    (hr : cxvec_convolve M in_vec h_vec out_vec = some r) (hret : r.ret = -1) :
    r.out = out_vec := by
  unfold cxvec_convolve at hr
  split at hr
  · cases hr; rfl
  split at hr
  · cases hr; rfl
  split at hr
  · cases hr; rfl
  · cases hm : out_vec.memset0 out_vec.len with
    | none => rw [hm] at hr; cases hr
    | some c0 =>
      rw [hm] at hr
      simp only [Option.bind_eq_bind, Option.some_bind] at hr
      cases hl : (List.range out_vec.len.toNat).foldlM (convolve_step in_vec h_vec) c0 with
      | none => rw [hl] at hr; cases hr
      | some c =>
        rw [hl] at hr
        simp only [Option.some_bind, Option.some.injEq] at hr
        subst hr
        simp only at hret
        omega

/-! ## Sums and multiples of vectors -/

theorem add_data (x y : cxvec) (hh : y.headroom = x.headroom) (j : Int) :
    (x.add y).data j = (x.data j).bind (fun a => (y.data j).map (fun b => a.add b)) := by
  unfold cxvec.data cxvec.add
  simp only [hh]
  split
  · rw [List.getElem?_zipWith']
    cases x.storage[((x.headroom : Int) + j).toNat]? <;> rfl
  · rfl

theorem scale_data (c : ℚ) (x : cxvec) (j : Int) :
    (x.scale c).data j = (x.data j).map (cmplx.scale c) := by
  unfold cxvec.data cxvec.scale
  simp only
  split
  · rw [List.getElem?_map]
  · rfl

theorem add_wf {x y : cxvec} (hx : x.wf) (hy : y.wf) (hl : y.len = x.len)
    (hh : y.headroom = x.headroom) : (x.add y).wf := by
  obtain ⟨x0, x1⟩ := hx
  obtain ⟨_, y1⟩ := hy
  refine ⟨x0, ?_⟩
  simp only [cxvec.add, List.length_zipWith]
  omega

theorem scale_wf {x : cxvec} (c : ℚ) (hx : x.wf) : (x.scale c).wf := by
  obtain ⟨x0, x1⟩ := hx
  refine ⟨x0, ?_⟩
  simp only [cxvec.scale, List.length_map]
  exact x1

theorem add_sample {x y : cxvec} (hx : x.wf) (hy : y.wf) (hl : y.len = x.len)
    (hh : y.headroom = x.headroom) {j : Int} (h0 : -(x.headroom : Int) ≤ j) (h1 : j < x.len) :
    (x.add y).sample j = (x.sample j).add (y.sample j) := by
  obtain ⟨a, ha⟩ := wf_data hx h0 h1
  have hy0 : -(y.headroom : Int) ≤ j := by rw [hh]; exact h0
  have hy1 : j < y.len := by rw [hl]; exact h1
  obtain ⟨b, hb⟩ := wf_data hy hy0 hy1
  simp [cxvec.sample, add_data x y hh, ha, hb]

theorem scale_sample (c : ℚ) {x : cxvec} (hx : x.wf) {j : Int}
    (h0 : -(x.headroom : Int) ≤ j) (h1 : j < x.len) :
    (x.scale c).sample j = (x.sample j).scale c := by
  obtain ⟨a, ha⟩ := wf_data hx h0 h1
  simp [cxvec.sample, scale_data, ha]

theorem cxvec_convolve_rejects {M : Nat} {in_vec taps out_vec : cxvec}
    (hv : in_vec.len < out_vec.len ∨ in_vec.flags &&& M ≠ 0 ∨ taps.flags &&& M = 0) :
    ∃ e, cxvec_convolve M in_vec taps out_vec = some ⟨-1, out_vec, e⟩ := by
  unfold cxvec_convolve
  by_cases hlen : in_vec.len < out_vec.len
  · rw [if_pos hlen]
    exact ⟨_, rfl⟩
  · by_cases hfi : in_vec.flags &&& M ≠ 0
    · rw [if_neg hlen, if_pos hfi]
      exact ⟨_, rfl⟩
    · have hft : taps.flags &&& M = 0 := by
        rcases hv with h | h | h
        · exact absurd h hlen
        · exact absurd h hfi
        · exact h
      rw [if_neg hlen, if_neg hfi, if_pos (by simp [hft])]
      exact ⟨_, rfl⟩

/-! ## Statements of the specification -/

/-- C1: a call that passes the checks (`in.len ≥ out.len ≥ 0`, `in` not
`REAL_ONLY`, `taps` `REAL_ONLY`) on well-formed vectors whose input has at
least `taps.len - 1` samples of headroom succeeds, returns `out.len`, and
leaves at every output index `i` the sample whose real part is
`Σ_k in[i-(taps.len-1)+k].real * taps[k].real` and whose imaginary part is
`Σ_k in[i-(taps.len-1)+k].imag * taps[k].real`, `k` over `[0, taps.len)`. -/
theorem C1_convolve_sum (M : Nat) (in_vec taps out_vec : cxvec)
    (hlen : out_vec.len ≤ in_vec.len) (hfi : in_vec.flags &&& M = 0)
    (hft : taps.flags &&& M ≠ 0) (hin : in_vec.wf) (htaps : taps.wf) (hout : out_vec.wf)
    (hhead : taps.len - 1 ≤ in_vec.headroom) :
    ∃ r, cxvec_convolve M in_vec taps out_vec = some r ∧ r.ret = out_vec.len
      ∧ ∀ i : Int, 0 ≤ i → i < out_vec.len → r.out.data i = some
          ⟨∑ k ∈ Finset.range taps.len.toNat,
              (in_vec.sample (i - (taps.len - 1) + k)).real * (taps.sample k).real,
           ∑ k ∈ Finset.range taps.len.toNat,
              (in_vec.sample (i - (taps.len - 1) + k)).imag * (taps.sample k).real⟩ :=
  cxvec_convolve_closed_form hlen hfi hft hin htaps hout hhead

/-- C1 at the moving-average scenario. -/
theorem C1_convolve_sum_witness :
    ∃ r, cxvec_convolve 1 (scenario_in 0) (scenario_taps 1) scenario_out = some r
      ∧ r.ret = scenario_out.len
      ∧ ∀ i : Int, 0 ≤ i → i < scenario_out.len → r.out.data i = some
          ⟨∑ k ∈ Finset.range (scenario_taps 1).len.toNat,
              ((scenario_in 0).sample (i - ((scenario_taps 1).len - 1) + k)).real
                * ((scenario_taps 1).sample k).real,
           ∑ k ∈ Finset.range (scenario_taps 1).len.toNat,
              ((scenario_in 0).sample (i - ((scenario_taps 1).len - 1) + k)).imag
                * ((scenario_taps 1).sample k).real⟩ :=
  C1_convolve_sum 1 (scenario_in 0) (scenario_taps 1) scenario_out
    (by decide) (by decide) (by decide) (by decide) (by decide) (by decide) (by decide)

/-- C2 (refuted as stated): in the moving-average scenario the call does
not leave the real parts `[0.5, 0.5, 0, 0.5, 0.5]`. -/
theorem C2_scenario_counterexample :
    ¬ ∃ r, cxvec_convolve 1 (scenario_in 0) (scenario_taps 1) scenario_out = some r
        ∧ r.out.storage.map cmplx.real = [1/2, 1/2, 0, 1/2, 1/2] := by
  have hrun : cxvec_convolve 1 (scenario_in 0) (scenario_taps 1) scenario_out
      = some ⟨5, ⟨5, 0, 0, [⟨1/2, 0⟩, ⟨1, 0⟩, ⟨1/2, 0⟩, ⟨1/2, 0⟩, ⟨1, 0⟩]⟩, []⟩ := by
    simp [cxvec_convolve, scenario_in, scenario_taps, scenario_out, cxvec.memset0,
      List.range_succ, convolve_step, cxvec.data, cxvec.store, mac_real_vec_n, mac_real]
    norm_num
  rintro ⟨r, hr, hs⟩
  rw [hrun] at hr
  cases hr
  norm_num at hs

/-- C2 (amended): with taps `[0.5, 0.5]` flagged `REAL_ONLY`, the input
`1, 1, 0, 1, 1` (not `REAL_ONLY`) behind one headroom sample `0`, and any
well-formed output vector of length 5, the call succeeds, returns 5 and
leaves the real parts `[0.5, 1, 0.5, 0.5, 1]`, all imaginary parts `0`. -/
theorem C2_scenario (M fi ft : Nat) (hfi : fi &&& M = 0) (hft : ft &&& M ≠ 0)
    (out_vec : cxvec) (hout : out_vec.wf) (hlen : out_vec.len = 5) :
    ∃ r, cxvec_convolve M (scenario_in fi) (scenario_taps ft) out_vec = some r
      ∧ r.ret = 5
      ∧ (List.range 5).map (fun i : Nat => r.out.data i)
          = [some ⟨1/2, 0⟩, some ⟨1, 0⟩, some ⟨1/2, 0⟩, some ⟨1/2, 0⟩, some ⟨1, 0⟩] := by
  have hk : ∀ i : Nat, i < 5 → convolve_at (scenario_in fi) (scenario_taps ft) i
      = [some ⟨1/2, 0⟩, some ⟨1, 0⟩, some ⟨1/2, 0⟩, some ⟨1/2, 0⟩, some (⟨1, 0⟩ : cmplx)].getD i none := by
    intro i hi
    interval_cases i <;>
      simp [convolve_at, scenario_in, scenario_taps, mac_real_vec_n, List.range_succ,
        cxvec.data, mac_real] <;> norm_num
  obtain ⟨r, hr, hret⟩ := @cxvec_convolve_total M (scenario_in fi)
    (scenario_taps ft) out_vec (by rw [hlen]; simp [scenario_in]) hfi hft hout.1
    (le_of_eq hout.2.symm)
    (fun i hi => by
      have hi5 : i < 5 := by omega
      rw [hk i hi5]
      interval_cases i <;> exact ⟨_, rfl⟩)
  obtain ⟨_, _, hdone, _⟩ := cxvec_convolve_success hr (by have := hout.1; omega)
  refine ⟨r, hr, by rw [hret, hlen], ?_⟩
  have h0 := (hdone 0 (by rw [hlen]; decide)).1
  have h1 := (hdone 1 (by rw [hlen]; decide)).1
  have h2 := (hdone 2 (by rw [hlen]; decide)).1
  have h3 := (hdone 3 (by rw [hlen]; decide)).1
  have h4 := (hdone 4 (by rw [hlen]; decide)).1
  rw [hk 0 (by decide)] at h0
  rw [hk 1 (by decide)] at h1
  rw [hk 2 (by decide)] at h2
  rw [hk 3 (by decide)] at h3
  rw [hk 4 (by decide)] at h4
  simp only [List.range_succ, List.range_zero, List.nil_append, List.cons_append, List.map_cons,
    List.map_nil, h0, h1, h2, h3, h4]
  rfl

/-- C2 (amended) at flag mask 1 and the sentinel-filled output. -/
theorem C2_scenario_witness :
    ∃ r, cxvec_convolve 1 (scenario_in 0) (scenario_taps 1) scenario_out = some r
      ∧ r.ret = 5
      ∧ (List.range 5).map (fun i : Nat => r.out.data i)
          = [some ⟨1/2, 0⟩, some ⟨1, 0⟩, some ⟨1/2, 0⟩, some ⟨1/2, 0⟩, some ⟨1, 0⟩] :=
  C2_scenario 1 0 1 (by decide) (by decide) scenario_out (by decide) (by decide)

/-- C3: a call with `in.len < out.len` returns `-1` and leaves the output
vector as it was, whatever the flags of `in` and `taps` are. -/
theorem C3_length_rejected (M : Nat) (in_vec taps out_vec : cxvec)
    (hlen : in_vec.len < out_vec.len) :
    cxvec_convolve M in_vec taps out_vec
      = some ⟨-1, out_vec, ["convolve: Invalid vector length\n"]⟩ := by
  unfold cxvec_convolve
  rw [if_pos hlen]

/-- C3 at a two-sample input asked for five outputs. -/
theorem C3_length_rejected_witness :
    cxvec_convolve 1 ⟨2, 0, 0, [⟨1, 0⟩, ⟨1, 0⟩]⟩ (scenario_taps 1) scenario_out
      = some ⟨-1, scenario_out, ["convolve: Invalid vector length\n"]⟩ :=
  C3_length_rejected 1 ⟨2, 0, 0, [⟨1, 0⟩, ⟨1, 0⟩]⟩ (scenario_taps 1) scenario_out (by decide)

/-- C4: a call whose taps are not flagged `REAL_ONLY` returns `-1` and
leaves the output vector as it was. -/
theorem C4_complex_taps_rejected (M : Nat) (in_vec taps out_vec : cxvec)
    (hft : taps.flags &&& M = 0) :
    ∃ e, cxvec_convolve M in_vec taps out_vec = some ⟨-1, out_vec, e⟩ := by
  unfold cxvec_convolve
  by_cases hlen : in_vec.len < out_vec.len
  · rw [if_pos hlen]
    exact ⟨_, rfl⟩
  · by_cases hfi : in_vec.flags &&& M ≠ 0
    · rw [if_neg hlen, if_pos hfi]
      exact ⟨_, rfl⟩
    · rw [if_neg hlen, if_neg hfi, if_pos (by simp [hft])]
      exact ⟨_, rfl⟩

/-- C4 at the scenario with the taps left unflagged: the sentinel pattern
is still in the output. -/
theorem C4_complex_taps_rejected_witness :
    ∃ e, cxvec_convolve 1 (scenario_in 0) (scenario_taps 0) scenario_out
      = some ⟨-1, scenario_out, e⟩ :=
  C4_complex_taps_rejected 1 (scenario_in 0) (scenario_taps 0) scenario_out (by decide)

/-- C5: a call whose input vector is flagged `REAL_ONLY` returns `-1` and
leaves the output vector as it was. -/
theorem C5_real_input_rejected (M : Nat) (in_vec taps out_vec : cxvec)
    (hfi : in_vec.flags &&& M ≠ 0) :
    ∃ e, cxvec_convolve M in_vec taps out_vec = some ⟨-1, out_vec, e⟩ := by
  unfold cxvec_convolve
  by_cases hlen : in_vec.len < out_vec.len
  · rw [if_pos hlen]
    exact ⟨_, rfl⟩
  · rw [if_neg hlen, if_pos hfi]
    exact ⟨_, rfl⟩

/-- C5 at the scenario with the input flagged `REAL_ONLY`. -/
theorem C5_real_input_rejected_witness :
    ∃ e, cxvec_convolve 1 (scenario_in 1) (scenario_taps 1) scenario_out
      = some ⟨-1, scenario_out, e⟩ :=
  C5_real_input_rejected 1 (scenario_in 1) (scenario_taps 1) scenario_out (by decide)

/-- C6 (refuted as stated): a length violation (flags valid) and a format
violation (lengths valid) return the same value, `-1`. -/
theorem C6_same_error_value_counterexample :
    (cxvec_convolve 1 ⟨2, 0, 0, [⟨1, 0⟩, ⟨1, 0⟩]⟩ (scenario_taps 1) scenario_out).map Result.ret
        = some (-1)
      ∧ (cxvec_convolve 1 (scenario_in 0) (scenario_taps 0) scenario_out).map Result.ret
        = some (-1) := by
  constructor <;> simp [cxvec_convolve, scenario_in, scenario_taps, scenario_out]

/-- C6 (amended): a length violation (`in.len < out.len`, any flags) and a
format violation (lengths valid, `in` `REAL_ONLY` or `taps` not `REAL_ONLY`)
both return `-1` with the output untouched; the returned value is the same,
and the two kinds differ only in the line written to `stderr`. -/
theorem C6_error_value (M : Nat) (in1 taps1 out1 in2 taps2 out2 : cxvec)
    (hlen1 : in1.len < out1.len)
    (hlen2 : out2.len ≤ in2.len) (hf2 : in2.flags &&& M ≠ 0 ∨ taps2.flags &&& M = 0) :
    ∃ e1 e2, cxvec_convolve M in1 taps1 out1 = some ⟨-1, out1, e1⟩
      ∧ cxvec_convolve M in2 taps2 out2 = some ⟨-1, out2, e2⟩ ∧ e1 ≠ e2 := by
  unfold cxvec_convolve
  rw [if_pos hlen1, if_neg (not_lt.mpr hlen2)]
  by_cases hfi2 : in2.flags &&& M ≠ 0
  · rw [if_pos hfi2]
    exact ⟨_, _, rfl, rfl, by decide⟩
  · have hft2 : taps2.flags &&& M = 0 := by
      rcases hf2 with h | h
      · exact absurd h hfi2
      · exact h
    rw [if_neg hfi2, if_pos (by simp [hft2])]
    exact ⟨_, _, rfl, rfl, by decide⟩

/-- C6 (amended) at a too short input against unflagged taps. -/
theorem C6_error_value_witness :
    ∃ e1 e2, cxvec_convolve 1 ⟨2, 0, 0, [⟨1, 0⟩, ⟨1, 0⟩]⟩ (scenario_taps 1) scenario_out
        = some ⟨-1, scenario_out, e1⟩
      ∧ cxvec_convolve 1 (scenario_in 0) (scenario_taps 0) scenario_out
        = some ⟨-1, scenario_out, e2⟩ ∧ e1 ≠ e2 :=
  C6_error_value 1 ⟨2, 0, 0, [⟨1, 0⟩, ⟨1, 0⟩]⟩ (scenario_taps 1) scenario_out
    (scenario_in 0) (scenario_taps 0) scenario_out
    (by decide) (by decide) (Or.inr (by decide))

/-- C7 (refuted as stated): a one-sample input without headroom against two
taps is not rejected with the output untouched; the kernel reads `in[-1]`,
before the start of the storage, and the call is undefined. -/
theorem C7_headroom_counterexample :
    (¬ ∃ e, cxvec_convolve 1 ⟨1, 0, 0, [⟨1, 0⟩]⟩ (scenario_taps 1) ⟨1, 0, 0, [⟨7, -7⟩]⟩
        = some ⟨-1, ⟨1, 0, 0, [⟨7, -7⟩]⟩, e⟩)
      ∧ cxvec_convolve 1 ⟨1, 0, 0, [⟨1, 0⟩]⟩ (scenario_taps 1) ⟨1, 0, 0, [⟨7, -7⟩]⟩ = none := by
  have hrun : cxvec_convolve 1 ⟨1, 0, 0, [⟨1, 0⟩]⟩ (scenario_taps 1) ⟨1, 0, 0, [⟨7, -7⟩]⟩
      = none := by
    simp [cxvec_convolve, scenario_taps, cxvec.memset0, List.range_succ, convolve_step,
      cxvec.data, mac_real_vec_n]
  refine ⟨?_, hrun⟩
  rintro ⟨e, he⟩
  rw [hrun] at he
  cases he

/-- C7 (amended): a call that passes the three checks with `out.len > 0` and
an input headroom smaller than `taps.len - 1` is not rejected: no headroom
check exists, the first kernel read `in[-(taps.len-1)]` lies before the
start of the input storage, and the behaviour is undefined (the embedding
yields no result). -/
theorem C7_headroom_unchecked (M : Nat) (in_vec taps out_vec : cxvec)
    (hlen : out_vec.len ≤ in_vec.len) (hfi : in_vec.flags &&& M = 0)
    (hft : taps.flags &&& M ≠ 0) (hpos : 0 < out_vec.len)
    (hhead : (in_vec.headroom : Int) < taps.len - 1) :
    in_vec.data (-(taps.len - 1)) = none
      ∧ cxvec_convolve M in_vec taps out_vec = none := by
  refine ⟨?_, cxvec_convolve_undefined hlen hfi hft hpos hhead⟩
  unfold cxvec.data
  rw [if_neg (by omega)]

/-- C7 (amended) at a one-sample input without headroom against two taps. -/
theorem C7_headroom_unchecked_witness :
    (⟨1, 0, 0, [⟨1, 0⟩]⟩ : cxvec).data (-((scenario_taps 1).len - 1)) = none
      ∧ cxvec_convolve 1 ⟨1, 0, 0, [⟨1, 0⟩]⟩ (scenario_taps 1) ⟨1, 0, 0, [⟨7, -7⟩]⟩ = none :=
  C7_headroom_unchecked 1 ⟨1, 0, 0, [⟨1, 0⟩]⟩ (scenario_taps 1) ⟨1, 0, 0, [⟨7, -7⟩]⟩
    (by decide) (by decide) (by decide) (by decide) (by decide)

/-- C8: on well-formed vectors (so `taps.len ≥ 0`, and in particular for
every `taps.len ≥ 1`) with `in.len ≥ out.len ≥ 0`, valid flags and `in.headroom ≥ taps.len - 1` the call succeeds (no access
falls outside a storage), and for every `i` in `[0, out.len)` and `k` in
`[0, taps.len)` the input index `i-(taps.len-1)+k` lies in
`[-headroom, in.len)` and is readable, the tap index `k` is readable and the
output index `i` is inside the output storage. -/
theorem C8_accesses_in_bounds (M : Nat) (in_vec taps out_vec : cxvec)
    (hlen : out_vec.len ≤ in_vec.len) (hfi : in_vec.flags &&& M = 0)
    (hft : taps.flags &&& M ≠ 0) (hin : in_vec.wf) (htaps : taps.wf) (hout : out_vec.wf)
    (hhead : taps.len - 1 ≤ in_vec.headroom) :
    (∃ r, cxvec_convolve M in_vec taps out_vec = some r ∧ r.ret = out_vec.len)
      ∧ ∀ i k : Int, 0 ≤ i → i < out_vec.len → 0 ≤ k → k < taps.len →
          (-(in_vec.headroom : Int) ≤ i - (taps.len - 1) + k
            ∧ i - (taps.len - 1) + k < in_vec.len
            ∧ (∃ a, in_vec.data (i - (taps.len - 1) + k) = some a)
            ∧ (∃ b, taps.data k = some b)
            ∧ ∃ c, out_vec.data i = some c) := by
  constructor
  · exact cxvec_convolve_total hlen hfi hft hout.1 (le_of_eq hout.2.symm)
      (fun i hi => ⟨_, convolve_at_sum hin htaps hhead (by omega)⟩)
  · intro i k hi0 hi1 hk0 hk1
    exact ⟨by omega, by omega, wf_data hin (by omega) (by omega),
      wf_data htaps (by omega) hk1, wf_data hout (by omega) hi1⟩

/-- C8 at the moving-average scenario. -/
theorem C8_accesses_in_bounds_witness :
    (∃ r, cxvec_convolve 1 (scenario_in 0) (scenario_taps 1) scenario_out = some r
        ∧ r.ret = scenario_out.len)
      ∧ ∀ i k : Int, 0 ≤ i → i < scenario_out.len → 0 ≤ k → k < (scenario_taps 1).len →
          (-((scenario_in 0).headroom : Int) ≤ i - ((scenario_taps 1).len - 1) + k
            ∧ i - ((scenario_taps 1).len - 1) + k < (scenario_in 0).len
            ∧ (∃ a, (scenario_in 0).data (i - ((scenario_taps 1).len - 1) + k) = some a)
            ∧ (∃ b, (scenario_taps 1).data k = some b)
            ∧ ∃ c, scenario_out.data i = some c) :=
  C8_accesses_in_bounds 1 (scenario_in 0) (scenario_taps 1) scenario_out
    (by decide) (by decide) (by decide) (by decide) (by decide) (by decide) (by decide)

/-- C9 (amended): for taps of length `L ≥ 1` with finite values (arithmetic
taken exactly), `N = out.len` outputs and an impulse position `p ≥ 0` (in
particular every `p` in `[0, N)`): if the input is `0` at every index the
kernel can read (`[-(L-1), in.len)`) except `in[p] = 1 + 0i`, the call
succeeds and
`out[p+j] = (taps[L-1-j].real, 0)` for every `j` in `[0, L)` with `p+j < N`,
while `out[i] = (0, 0)` at every other index `i` in `[0, N)`. -/
theorem C9_impulse_response (M : Nat) (in_vec taps out_vec : cxvec)
    (hlen : out_vec.len ≤ in_vec.len) (hfi : in_vec.flags &&& M = 0)
    (hft : taps.flags &&& M ≠ 0) (hin : in_vec.wf) (htaps : taps.wf) (hout : out_vec.wf)
    (hL : 1 ≤ taps.len) (hhead : taps.len - 1 ≤ in_vec.headroom)
    (p : Int) (hp0 : 0 ≤ p)
    (himp : ∀ j : Int, -(taps.len - 1) ≤ j → j < in_vec.len →
      in_vec.data j = some (if j = p then ⟨1, 0⟩ else ⟨0, 0⟩)) :
    ∃ r, cxvec_convolve M in_vec taps out_vec = some r ∧ r.ret = out_vec.len
      ∧ (∀ j : Int, 0 ≤ j → j < taps.len → p + j < out_vec.len →
            r.out.data (p + j) = some ⟨(taps.sample (taps.len - 1 - j)).real, 0⟩)
      ∧ (∀ i : Int, 0 ≤ i → i < out_vec.len → ¬ (p ≤ i ∧ i < p + taps.len) →
            r.out.data i = some ⟨0, 0⟩) := by
  obtain ⟨r, hr, hret, hsum⟩ := cxvec_convolve_closed_form hlen hfi hft hin htaps hout hhead
  have hs : ∀ (i : Int) (k : Nat), 0 ≤ i → i < out_vec.len → k < taps.len.toNat →
      in_vec.sample (i - (taps.len - 1) + k)
        = if i - (taps.len - 1) + k = p then ⟨1, 0⟩ else ⟨0, 0⟩ := by
    intro i k hi0 hi1 hk
    exact sample_of_data (himp _ (by omega) (by omega))
  have himag : ∀ i : Int, 0 ≤ i → i < out_vec.len →
      ∑ k ∈ Finset.range taps.len.toNat,
        (in_vec.sample (i - (taps.len - 1) + k)).imag * (taps.sample k).real = 0 := by
    intro i hi0 hi1
    apply Finset.sum_eq_zero
    intro k hk
    rw [hs i k hi0 hi1 (Finset.mem_range.mp hk)]
    split <;> simp
  refine ⟨r, hr, hret, ?_, ?_⟩
  · intro j hj0 hj1 hj2
    rw [hsum (p + j) (by omega) hj2, himag (p + j) (by omega) hj2]
    have hk0 : (taps.len - 1 - j).toNat < taps.len.toNat := by omega
    rw [Finset.sum_eq_single (taps.len - 1 - j).toNat]
    · rw [hs (p + j) _ (by omega) hj2 hk0]
      have hcast : (((taps.len - 1 - j).toNat : Nat) : Int) = taps.len - 1 - j := by omega
      rw [hcast, if_pos (by omega)]
      simp
    · intro k hk hne
      rw [hs (p + j) k (by omega) hj2 (Finset.mem_range.mp hk), if_neg (by omega)]
      simp
    · intro hnot
      exact absurd (Finset.mem_range.mpr hk0) hnot
  · intro i hi0 hi1 hout
    rw [hsum i hi0 hi1, himag i hi0 hi1]
    rw [Finset.sum_eq_zero]
    intro k hk
    have hk' := Finset.mem_range.mp hk
    rw [hs i k hi0 hi1 hk', if_neg (by omega)]
    simp

/-- C9 at the taps `[0.5, 0.5]` and an impulse at `p = 2` among five samples. -/
theorem C9_impulse_response_witness :
    ∃ r, cxvec_convolve 1 ⟨5, 0, 1, [⟨0, 0⟩, ⟨0, 0⟩, ⟨0, 0⟩, ⟨1, 0⟩, ⟨0, 0⟩, ⟨0, 0⟩]⟩
          (scenario_taps 1) scenario_out = some r
      ∧ r.ret = scenario_out.len
      ∧ (∀ j : Int, 0 ≤ j → j < (scenario_taps 1).len → 2 + j < scenario_out.len →
            r.out.data (2 + j)
              = some ⟨((scenario_taps 1).sample ((scenario_taps 1).len - 1 - j)).real, 0⟩)
      ∧ (∀ i : Int, 0 ≤ i → i < scenario_out.len → ¬ (2 ≤ i ∧ i < 2 + (scenario_taps 1).len) →
            r.out.data i = some ⟨0, 0⟩) :=
  C9_impulse_response 1 ⟨5, 0, 1, [⟨0, 0⟩, ⟨0, 0⟩, ⟨0, 0⟩, ⟨1, 0⟩, ⟨0, 0⟩, ⟨0, 0⟩]⟩
    (scenario_taps 1) scenario_out
    (by decide) (by decide) (by decide) (by decide) (by decide) (by decide) (by decide)
    (by decide) 2 (by decide)
    (by
      intro j h0 h1
      have h0' : -1 ≤ j := by simpa [scenario_taps] using h0
      have h1' : j < 5 := by simpa using h1
      interval_cases j <;> simp [cxvec.data])

/-- C10: two successful calls with the same input and taps and output
vectors of the same length return the same value and leave the same sample
at every output index, whatever the output vectors held before. -/
theorem C10_output_overwritten (M : Nat) (in_vec taps out1 out2 : cxvec) (r1 r2 : Result)
    (hshape : out1.len = out2.len)
    (h1 : cxvec_convolve M in_vec taps out1 = some r1) (s1 : r1.ret ≠ -1)
    (h2 : cxvec_convolve M in_vec taps out2 = some r2) (s2 : r2.ret ≠ -1) :
    r1.ret = r2.ret
      ∧ ∀ i : Int, 0 ≤ i → i < out1.len → r1.out.data i = r2.out.data i := by
  obtain ⟨⟨_, _, _, _, e1, _⟩, _, d1, _⟩ := cxvec_convolve_success h1 s1
  obtain ⟨⟨_, _, _, _, e2, _⟩, _, d2, _⟩ := cxvec_convolve_success h2 s2
  refine ⟨by rw [e1, e2, hshape], ?_⟩
  intro i hi0 hi1
  obtain ⟨n, rfl⟩ := Int.eq_ofNat_of_zero_le hi0
  rw [(d1 n hi1).1, (d2 n (by omega)).1]

/-- C10 at the moving-average scenario, once into the sentinel-filled output
and once into an output with one headroom sample and other stale values. -/
theorem C10_output_overwritten_witness :
    (5 : Int) = 5
      ∧ ∀ i : Int, 0 ≤ i → i < scenario_out.len →
          (⟨5, 0, 0, [⟨1/2, 0⟩, ⟨1, 0⟩, ⟨1/2, 0⟩, ⟨1/2, 0⟩, ⟨1, 0⟩]⟩ : cxvec).data i
            = (⟨5, 0, 1, [⟨3, 3⟩, ⟨1/2, 0⟩, ⟨1, 0⟩, ⟨1/2, 0⟩, ⟨1/2, 0⟩, ⟨1, 0⟩]⟩ : cxvec).data i :=
  C10_output_overwritten 1 (scenario_in 0) (scenario_taps 1) scenario_out
    ⟨5, 0, 1, [⟨3, 3⟩, ⟨1, 1⟩, ⟨2, 2⟩, ⟨3, 3⟩, ⟨4, 4⟩, ⟨5, 5⟩]⟩
    ⟨5, ⟨5, 0, 0, [⟨1/2, 0⟩, ⟨1, 0⟩, ⟨1/2, 0⟩, ⟨1/2, 0⟩, ⟨1, 0⟩]⟩, []⟩
    ⟨5, ⟨5, 0, 1, [⟨3, 3⟩, ⟨1/2, 0⟩, ⟨1, 0⟩, ⟨1/2, 0⟩, ⟨1/2, 0⟩, ⟨1, 0⟩]⟩, []⟩
    (by decide)
    (by
      simp [cxvec_convolve, scenario_in, scenario_taps, scenario_out, cxvec.memset0,
        List.range_succ, convolve_step, cxvec.data, cxvec.store, mac_real_vec_n, mac_real]
      norm_num)
    (by decide)
    (by
      simp [cxvec_convolve, scenario_in, scenario_taps, cxvec.memset0,
        List.range_succ, convolve_step, cxvec.data, cxvec.store, mac_real_vec_n, mac_real]
      norm_num)
    (by decide)

/-- C11 (amended): on a valid call (checks passed, well-formed vectors,
enough headroom) whose taps all have real part `0`, the call succeeds and
every output sample `out[i]`, `i` in `[0, out.len)`, is `(0, 0)`, whatever
finite values the input samples have (arithmetic taken exactly). -/
theorem C11_zero_taps (M : Nat) (in_vec taps out_vec : cxvec)
    (hlen : out_vec.len ≤ in_vec.len) (hfi : in_vec.flags &&& M = 0)
    (hft : taps.flags &&& M ≠ 0) (hin : in_vec.wf) (htaps : taps.wf) (hout : out_vec.wf)
    (hhead : taps.len - 1 ≤ in_vec.headroom)
    (hzero : ∀ k : Int, 0 ≤ k → k < taps.len → (taps.sample k).real = 0) :
    ∃ r, cxvec_convolve M in_vec taps out_vec = some r ∧ r.ret = out_vec.len
      ∧ ∀ i : Int, 0 ≤ i → i < out_vec.len → r.out.data i = some ⟨0, 0⟩ := by
  obtain ⟨r, hr, hret, hsum⟩ := cxvec_convolve_closed_form hlen hfi hft hin htaps hout hhead
  refine ⟨r, hr, hret, ?_⟩
  intro i hi0 hi1
  rw [hsum i hi0 hi1]
  have hz : ∀ k ∈ Finset.range taps.len.toNat, (taps.sample (k : Int)).real = 0 := by
    intro k hk
    have := Finset.mem_range.mp hk
    exact hzero k (by omega) (by omega)
  rw [Finset.sum_eq_zero (fun k hk => by rw [hz k hk, mul_zero]),
    Finset.sum_eq_zero (fun k hk => by rw [hz k hk, mul_zero])]

/-- C11 at the scenario input against two taps of real part `0`. -/
theorem C11_zero_taps_witness :
    ∃ r, cxvec_convolve 1 (scenario_in2 0) ⟨2, 1, 0, [⟨0, 4⟩, ⟨0, 0⟩]⟩ scenario_out = some r
      ∧ r.ret = scenario_out.len
      ∧ ∀ i : Int, 0 ≤ i → i < scenario_out.len → r.out.data i = some ⟨0, 0⟩ :=
  C11_zero_taps 1 (scenario_in2 0) ⟨2, 1, 0, [⟨0, 4⟩, ⟨0, 0⟩]⟩ scenario_out
    (by decide) (by decide) (by decide) (by decide) (by decide) (by decide) (by decide)
    (by
      intro k h0 h1
      have h1' : k < 2 := by simpa using h1
      interval_cases k <;> simp [cxvec.sample, cxvec.data])

/-- C12: on a valid call, for every output index `i` in `[0, out.len)`,
`single_convolve` given the pointer to `in[i]` (whatever `*out` held) returns
`1` and stores the very sample that `cxvec_convolve` leaves in `out[i]`. -/
theorem C12_single_matches_vector (M : Nat) (in_vec taps out_vec : cxvec) (y0 : cmplx)
    (hlen : out_vec.len ≤ in_vec.len) (hfi : in_vec.flags &&& M = 0)
    (hft : taps.flags &&& M ≠ 0) (hin : in_vec.wf) (htaps : taps.wf) (hout : out_vec.wf)
    (hhead : taps.len - 1 ≤ in_vec.headroom) (i : Nat) (hi : (i : Int) < out_vec.len) :
    ∃ r s, cxvec_convolve M in_vec taps out_vec = some r
      ∧ single_convolve M (fun k => in_vec.data ((i : Int) + k)) taps y0 = some s
      ∧ s.ret = 1 ∧ r.out.data i = some s.out := by
  obtain ⟨r, hr, hret⟩ := @cxvec_convolve_total M in_vec taps out_vec hlen hfi hft hout.1
    (le_of_eq hout.2.symm)
    (fun n hn => ⟨_, convolve_at_sum hin htaps hhead (by omega)⟩)
  obtain ⟨_, _, hdone, _⟩ := cxvec_convolve_success hr (by have := hout.1; omega)
  obtain ⟨hd, v, hv⟩ := hdone i hi
  refine ⟨r, ⟨1, v, []⟩, hr, ?_, rfl, ?_⟩
  · rw [single_convolve_at in_vec taps i y0 hft, hv]
    rfl
  · rw [hd, hv]

/-- C12 at output index 1 of the moving-average scenario. -/
theorem C12_single_matches_vector_witness :
    ∃ r s, cxvec_convolve 1 (scenario_in2 0) (scenario_taps 1) scenario_out = some r
      ∧ single_convolve 1 (fun k => (scenario_in2 0).data (((1 : Nat) : Int) + k))
          (scenario_taps 1) ⟨7, -7⟩ = some s
      ∧ s.ret = 1 ∧ r.out.data ((1 : Nat) : Int) = some s.out :=
  C12_single_matches_vector 1 (scenario_in2 0) (scenario_taps 1) scenario_out ⟨7, -7⟩
    (by decide) (by decide) (by decide) (by decide) (by decide) (by decide) (by decide)
    1 (by decide)

/-- C13: a call of `single_convolve` whose taps are not flagged `REAL_ONLY`
returns `-1` and the output sample keeps the value it had. -/
theorem C13_single_complex_taps_rejected (M : Nat) (in_ptr : Int → Option cmplx)
    (taps : cxvec) (out : cmplx) (hft : taps.flags &&& M = 0) :
    single_convolve M in_ptr taps out
      = some ⟨-1, out, ["convolve: Filter taps must be real\n"]⟩ := by
  unfold single_convolve
  rw [if_pos (by simp [hft])]

/-- C13 at the scenario with the taps left unflagged. -/
theorem C13_single_complex_taps_rejected_witness :
    single_convolve 1 (scenario_in 0).data (scenario_taps 0) ⟨7, -7⟩
      = some ⟨-1, ⟨7, -7⟩, ["convolve: Filter taps must be real\n"]⟩ :=
  C13_single_complex_taps_rejected 1 (scenario_in 0).data (scenario_taps 0) ⟨7, -7⟩
    (by decide)

/-- C14: for two tap vectors flagged `REAL_ONLY`, of equal length, whose
real parts agree at every tap index (imaginary parts arbitrary),
`cxvec_convolve` gives the same result (returned value, output vector,
diagnostics) on every input and output vector, and `single_convolve` gives
the same result on every input pointer. -/
theorem C14_tap_imag_ignored (M : Nat) (in_vec out_vec taps1 taps2 : cxvec)
    (in_ptr : Int → Option cmplx) (y0 : cmplx)
    (hf1 : taps1.flags &&& M ≠ 0) (hf2 : taps2.flags &&& M ≠ 0)
    (hlen : taps1.len = taps2.len)
    (hre : ∀ k : Int, 0 ≤ k → k < taps1.len →
      (taps1.data k).map cmplx.real = (taps2.data k).map cmplx.real) :
    cxvec_convolve M in_vec taps1 out_vec = cxvec_convolve M in_vec taps2 out_vec
      ∧ single_convolve M in_ptr taps1 y0 = single_convolve M in_ptr taps2 y0 := by
  constructor
  · unfold cxvec_convolve
    rw [convolve_step_congr in_vec taps1 taps2 hlen hre]
    simp only [hf1, hf2, ne_eq, not_false_eq_true, not_true_eq_false, if_false]
  · unfold single_convolve
    rw [mac_real_vec_n_congr _ (fun k => taps1.data k) (fun k => taps2.data k) _ taps1.len
      (fun k hk => hre k (by omega) (by omega)), hlen]
    simp only [hf1, hf2, ne_eq, not_false_eq_true, not_true_eq_false, if_false]

/-- C14 at the taps `[0.5, 0.5]` with imaginary parts `0, 0` and `5, -3`. -/
theorem C14_tap_imag_ignored_witness :
    cxvec_convolve 1 (scenario_in2 0) (scenario_taps 1) scenario_out
        = cxvec_convolve 1 (scenario_in2 0) (scenario_taps2 1) scenario_out
      ∧ single_convolve 1 (fun k => (scenario_in2 0).data (2 + k)) (scenario_taps 1) ⟨7, -7⟩
        = single_convolve 1 (fun k => (scenario_in2 0).data (2 + k)) (scenario_taps2 1) ⟨7, -7⟩ :=
  C14_tap_imag_ignored 1 (scenario_in2 0) scenario_out (scenario_taps 1) (scenario_taps2 1)
    (fun k => (scenario_in2 0).data (2 + k)) ⟨7, -7⟩
    (by decide) (by decide) (by decide)
    (by
      intro k h0 h1
      have h1' : k < 2 := by simpa using h1
      interval_cases k <;> simp [cxvec.data, scenario_taps, scenario_taps2])

/-- C15: whenever a call of `cxvec_convolve` returns (with success or with
`-1`), the output vector has the `len`, `flags`, `headroom` and storage size
it had before, and every sample of it outside `out[0 .. out.len)` is the
same as before. The input and tap vectors are only read. -/
theorem C15_frame (M : Nat) (in_vec taps out_vec : cxvec) (r : Result)
    (hr : cxvec_convolve M in_vec taps out_vec = some r) :
    r.out.len = out_vec.len ∧ r.out.flags = out_vec.flags
      ∧ r.out.headroom = out_vec.headroom
      ∧ r.out.storage.length = out_vec.storage.length
      ∧ ∀ j : Int, ¬ (0 ≤ j ∧ j < out_vec.len) → r.out.data j = out_vec.data j := by
  by_cases hret : r.ret = -1
  · rw [cxvec_convolve_error_out hr hret]
    exact ⟨rfl, rfl, rfl, rfl, fun _ _ => rfl⟩
  · obtain ⟨_, ⟨s1, s2, s3, s4⟩, _, hrest⟩ := cxvec_convolve_success hr hret
    exact ⟨s1, s2, s3, s4, hrest⟩

/-- C19: on a tap window whose imaginary parts are all `0`, the complex-tap
kernel `mac_cmplx_vec_n` leaves in `y` the value the real-tap kernel
`mac_real_vec_n` leaves, for every length, input window and accumulator;
and on readable windows that value exists. -/
theorem C19_cmplx_kernel_on_real_taps (x h : Int → Option cmplx) (y : cmplx) (len : Int)
    (him : ∀ k : Int, 0 ≤ k → k < len → ∀ b, h k = some b → b.imag = 0) :
    mac_cmplx_vec_n x h y len = mac_real_vec_n x h y len
      ∧ ((∀ k : Int, 0 ≤ k → k < len → (∃ a, x k = some a) ∧ ∃ b, h k = some b) →
          ∃ v, mac_cmplx_vec_n x h y len = some v) := by
  have heq := mac_cmplx_vec_n_real_taps x h y len
    (fun k hk b hb => him k (by omega) (by omega) b hb)
  refine ⟨heq, ?_⟩
  intro hread
  rw [heq]
  exact ⟨_, mac_real_vec_n_sum x h y len (fun k hk => (hread k (by omega) (by omega)).1)
    (fun k hk => (hread k (by omega) (by omega)).2)⟩

/-- C15 at the moving-average scenario, into an output with one headroom
sample: that sample is still `(3, 3)` after the call. -/
theorem C15_frame_witness :
    (5 : Int) = 5 ∧ (0 : Nat) = 0 ∧ (1 : Nat) = 1
      ∧ [(⟨3, 3⟩ : cmplx), ⟨1/2, 0⟩, ⟨1, 0⟩, ⟨1/2, 0⟩, ⟨1/2, 0⟩, ⟨1, 0⟩].length
          = [(⟨3, 3⟩ : cmplx), ⟨1, 1⟩, ⟨2, 2⟩, ⟨3, 3⟩, ⟨4, 4⟩, ⟨5, 5⟩].length
      ∧ ∀ j : Int, ¬ (0 ≤ j ∧ j < 5) →
          (⟨5, 0, 1, [⟨3, 3⟩, ⟨1/2, 0⟩, ⟨1, 0⟩, ⟨1/2, 0⟩, ⟨1/2, 0⟩, ⟨1, 0⟩]⟩ : cxvec).data j
            = (⟨5, 0, 1, [⟨3, 3⟩, ⟨1, 1⟩, ⟨2, 2⟩, ⟨3, 3⟩, ⟨4, 4⟩, ⟨5, 5⟩]⟩ : cxvec).data j :=
  C15_frame 1 (scenario_in 0) (scenario_taps 1)
    ⟨5, 0, 1, [⟨3, 3⟩, ⟨1, 1⟩, ⟨2, 2⟩, ⟨3, 3⟩, ⟨4, 4⟩, ⟨5, 5⟩]⟩
    ⟨5, ⟨5, 0, 1, [⟨3, 3⟩, ⟨1/2, 0⟩, ⟨1, 0⟩, ⟨1/2, 0⟩, ⟨1/2, 0⟩, ⟨1, 0⟩]⟩, []⟩
    (by
      simp [cxvec_convolve, scenario_in, scenario_taps, cxvec.memset0,
        List.range_succ, convolve_step, cxvec.data, cxvec.store, mac_real_vec_n, mac_real]
      norm_num)

/-- C19 at a window of the scenario input against the taps `[0.5, 0.5]`. -/
theorem C19_cmplx_kernel_on_real_taps_witness :
    mac_cmplx_vec_n (scenario_in2 0).data (scenario_taps 1).data ⟨7, -7⟩ 2
        = mac_real_vec_n (scenario_in2 0).data (scenario_taps 1).data ⟨7, -7⟩ 2
      ∧ ((∀ k : Int, 0 ≤ k → k < 2 →
            (∃ a, (scenario_in2 0).data k = some a) ∧ ∃ b, (scenario_taps 1).data k = some b) →
          ∃ v, mac_cmplx_vec_n (scenario_in2 0).data (scenario_taps 1).data ⟨7, -7⟩ 2 = some v) :=
  C19_cmplx_kernel_on_real_taps (scenario_in2 0).data (scenario_taps 1).data ⟨7, -7⟩ 2
    (by
      intro k h0 h1 b hb
      interval_cases k <;> simp [cxvec.data, scenario_taps] at hb <;> rw [← hb])

theorem cxvec_convolve_ret_neg_one {M : Nat} {in_vec taps out_vec : cxvec} {r : Result}
    (hr : cxvec_convolve M in_vec taps out_vec = some r) (hret : r.ret = -1) :
    in_vec.len < out_vec.len ∨ in_vec.flags &&& M ≠ 0 ∨ taps.flags &&& M = 0 := by
  by_contra hv
  have hlen : out_vec.len ≤ in_vec.len := by
    by_contra hc
    exact hv (Or.inl (by omega))
  have hfi : in_vec.flags &&& M = 0 := by
    by_contra hc
    exact hv (Or.inr (Or.inl hc))
  have hft : taps.flags &&& M ≠ 0 := fun hc => hv (Or.inr (Or.inr hc))
  unfold cxvec_convolve at hr
  rw [if_neg (by omega), if_neg (by simp [hfi]), if_neg (by simpa using hft)] at hr
  cases hm : out_vec.memset0 out_vec.len with
  | none => rw [hm] at hr; cases hr
  | some c0 =>
    rw [hm] at hr
    simp only [Option.bind_eq_bind, Option.some_bind] at hr
    cases hl : (List.range out_vec.len.toNat).foldlM (convolve_step in_vec taps) c0 with
    | none => rw [hl] at hr; cases hr
    | some c =>
      rw [hl] at hr
      simp only [Option.some_bind, Option.some.injEq] at hr
      subst hr
      simp only at hret
      omega

/-- C17 (refuted as stated): on well-formed vectors of non-negative lengths
that pass the three checks, with three taps and one sample of input
headroom, the call returns neither `-1` nor `out.len`: the kernel reads
`in[-2]`, before the storage, and the call is undefined. -/
theorem C17_undefined_call_counterexample :
    (⟨2, 0, 1, [⟨1, 0⟩, ⟨2, 0⟩, ⟨3, 0⟩]⟩ : cxvec).wf
      ∧ (⟨3, 1, 0, [⟨1, 0⟩, ⟨1, 0⟩, ⟨1, 0⟩]⟩ : cxvec).wf
      ∧ (⟨2, 0, 0, [⟨7, -7⟩, ⟨7, -7⟩]⟩ : cxvec).wf
      ∧ ¬ ((2 : Int) < 2 ∨ 0 &&& 1 ≠ 0 ∨ 1 &&& 1 = 0)
      ∧ ¬ ∃ r, cxvec_convolve 1 ⟨2, 0, 1, [⟨1, 0⟩, ⟨2, 0⟩, ⟨3, 0⟩]⟩
            ⟨3, 1, 0, [⟨1, 0⟩, ⟨1, 0⟩, ⟨1, 0⟩]⟩ ⟨2, 0, 0, [⟨7, -7⟩, ⟨7, -7⟩]⟩ = some r := by
  refine ⟨by decide, by decide, by decide, by decide, ?_⟩
  have hrun : cxvec_convolve 1 ⟨2, 0, 1, [⟨1, 0⟩, ⟨2, 0⟩, ⟨3, 0⟩]⟩
      ⟨3, 1, 0, [⟨1, 0⟩, ⟨1, 0⟩, ⟨1, 0⟩]⟩ ⟨2, 0, 0, [⟨7, -7⟩, ⟨7, -7⟩]⟩ = none := by
    simp [cxvec_convolve, cxvec.memset0, List.range_succ, convolve_step, cxvec.data,
      mac_real_vec_n]
  rintro ⟨r, hr⟩
  rw [hrun] at hr
  cases hr

/-- C17 (amended): a call with `in.len < out.len`, or `in` flagged
`REAL_ONLY`, or `taps` not flagged `REAL_ONLY` returns `-1`; a call that
passes these checks with `out.len ≥ 0`, an output storage that holds
`out.len` samples and every window sample `in[i-(taps.len-1)+k]` and tap
`taps[k]` readable returns exactly `out.len`, which is `≥ 0` and
`≤ in.len`; and whenever a call returns at all, the value is `-1` if and
only if one of the three violations holds, and `out.len` otherwise. -/
theorem C17_return_value (M : Nat) (in_vec taps out_vec : cxvec) :
    ((in_vec.len < out_vec.len ∨ in_vec.flags &&& M ≠ 0 ∨ taps.flags &&& M = 0) →
        ∃ e, cxvec_convolve M in_vec taps out_vec = some ⟨-1, out_vec, e⟩)
      ∧ (¬ (in_vec.len < out_vec.len ∨ in_vec.flags &&& M ≠ 0 ∨ taps.flags &&& M = 0) →
          0 ≤ out_vec.len →
          (out_vec.headroom : Int) + out_vec.len ≤ out_vec.storage.length →
          (∀ i k : Int, 0 ≤ i → i < out_vec.len → 0 ≤ k → k < taps.len →
            (∃ a, in_vec.data (i - (taps.len - 1) + k) = some a) ∧ ∃ b, taps.data k = some b) →
          ∃ r, cxvec_convolve M in_vec taps out_vec = some r
            ∧ r.ret = out_vec.len ∧ r.ret ≠ -1 ∧ 0 ≤ r.ret ∧ r.ret ≤ in_vec.len)
      ∧ (∀ r, cxvec_convolve M in_vec taps out_vec = some r →
          (r.ret = -1 ↔
            (in_vec.len < out_vec.len ∨ in_vec.flags &&& M ≠ 0 ∨ taps.flags &&& M = 0))
          ∧ (r.ret ≠ -1 → r.ret = out_vec.len ∧ 0 ≤ r.ret ∧ r.ret ≤ in_vec.len)) := by
  refine ⟨fun hv => cxvec_convolve_rejects hv, ?_, ?_⟩
  · intro hv hnn hst hread
    have hlen : out_vec.len ≤ in_vec.len := by
      by_contra hc
      exact hv (Or.inl (by omega))
    have hfi : in_vec.flags &&& M = 0 := by
      by_contra hc
      exact hv (Or.inr (Or.inl hc))
    have hft : taps.flags &&& M ≠ 0 := fun hc => hv (Or.inr (Or.inr hc))
    obtain ⟨r, hr, hret⟩ := @cxvec_convolve_total M in_vec taps out_vec hlen hfi hft hnn hst
      (fun n hn => ⟨_, mac_real_vec_n_sum _ _ _ _
        (fun k hk => (hread n k (by omega) hn (by omega) (by omega)).1)
        (fun k hk => (hread n k (by omega) hn (by omega) (by omega)).2)⟩)
    exact ⟨r, hr, hret, by omega, by omega, by omega⟩
  · intro r hr
    constructor
    · constructor
      · exact fun hret => cxvec_convolve_ret_neg_one hr hret
      · intro hv
        obtain ⟨e, he⟩ := @cxvec_convolve_rejects M in_vec taps out_vec hv
        rw [he] at hr
        cases hr
        rfl
    · intro hret
      obtain ⟨⟨h1, _, _, h4, h5, _⟩, _⟩ := cxvec_convolve_success hr hret
      exact ⟨h5, by omega, by omega⟩

/-- C17 (amended) at a call for zero outputs on an input without headroom
against two taps: it passes the checks, reads nothing and returns `0`. -/
theorem C17_return_value_witness :
    ∃ r, cxvec_convolve 1 ⟨1, 0, 0, [⟨1, 0⟩]⟩ (scenario_taps 1) ⟨0, 0, 0, []⟩ = some r
      ∧ r.ret = (⟨0, 0, 0, []⟩ : cxvec).len ∧ r.ret ≠ -1 ∧ 0 ≤ r.ret
      ∧ r.ret ≤ (⟨1, 0, 0, [⟨1, 0⟩]⟩ : cxvec).len :=
  (C17_return_value 1 ⟨1, 0, 0, [⟨1, 0⟩]⟩ (scenario_taps 1) ⟨0, 0, 0, []⟩).2.1
    (by decide) (by decide) (by decide)
    (fun i _ h0 h1 _ _ => absurd h1 (not_lt.mpr h0))

/-- C18: for fixed `REAL_ONLY` taps, well-formed inputs `x` and `y` of equal
shape (headroom included) with enough headroom, and a rational scalar `c`:
the calls on `x`, `y`, `x + y` and `c * x` all succeed, and at every output
index the output for `x + y` is the sum of the outputs for `x` and for `y`,
and the output for `c * x` is `c` times the output for `x`. -/
theorem C18_linear (M : Nat) (x y taps out_vec : cxvec) (c : ℚ)
    (hl : y.len = x.len) (hh : y.headroom = x.headroom)
    (hlen : out_vec.len ≤ x.len) (hfx : x.flags &&& M = 0) (hfy : y.flags &&& M = 0)
    (hft : taps.flags &&& M ≠ 0) (hx : x.wf) (hy : y.wf) (htaps : taps.wf)
    (hout : out_vec.wf) (hhead : taps.len - 1 ≤ x.headroom) :
    ∃ rx ry rs rc, cxvec_convolve M x taps out_vec = some rx
      ∧ cxvec_convolve M y taps out_vec = some ry
      ∧ cxvec_convolve M (x.add y) taps out_vec = some rs
      ∧ cxvec_convolve M (x.scale c) taps out_vec = some rc
      ∧ ∀ i : Int, 0 ≤ i → i < out_vec.len →
          ∃ a b, rx.out.data i = some a ∧ ry.out.data i = some b
            ∧ rs.out.data i = some (a.add b) ∧ rc.out.data i = some (a.scale c) := by
  obtain ⟨rx, hrx, _, hsx⟩ := cxvec_convolve_closed_form hlen hfx hft hx htaps hout hhead
  obtain ⟨ry, hry, _, hsy⟩ := @cxvec_convolve_closed_form M y taps out_vec
    (by rw [hl]; exact hlen) hfy hft hy htaps hout (by rw [hh]; exact hhead)
  obtain ⟨rs, hrs, _, hss⟩ := @cxvec_convolve_closed_form M (x.add y) taps out_vec
    hlen hfx hft (add_wf hx hy hl hh) htaps hout hhead
  obtain ⟨rc, hrc, _, hsc⟩ := @cxvec_convolve_closed_form M (x.scale c) taps out_vec
    hlen hfx hft (scale_wf c hx) htaps hout hhead
  refine ⟨rx, ry, rs, rc, hrx, hry, hrs, hrc, ?_⟩
  intro i hi0 hi1
  refine ⟨_, _, hsx i hi0 hi1, hsy i hi0 hi1, ?_, ?_⟩
  · rw [hss i hi0 hi1]
    have hadd : ∀ k ∈ Finset.range taps.len.toNat,
        (x.add y).sample (i - (taps.len - 1) + (k : Int))
          = (x.sample (i - (taps.len - 1) + k)).add (y.sample (i - (taps.len - 1) + k)) := by
      intro k hk
      have := Finset.mem_range.mp hk
      exact add_sample hx hy hl hh (by omega) (by omega)
    simp only [cmplx.add, Option.some.injEq, cmplx.mk.injEq, ← Finset.sum_add_distrib]
    constructor <;>
      exact Finset.sum_congr rfl (fun k hk => by rw [hadd k hk]; simp only [cmplx.add]; ring)
  · rw [hsc i hi0 hi1]
    have hscale : ∀ k ∈ Finset.range taps.len.toNat,
        (x.scale c).sample (i - (taps.len - 1) + (k : Int))
          = (x.sample (i - (taps.len - 1) + k)).scale c := by
      intro k hk
      have := Finset.mem_range.mp hk
      exact scale_sample c hx (by omega) (by omega)
    simp only [cmplx.scale, Option.some.injEq, cmplx.mk.injEq, Finset.mul_sum]
    constructor <;>
      exact Finset.sum_congr rfl (fun k hk => by rw [hscale k hk]; simp only [cmplx.scale]; ring)

/-- C18 at the two scenario inputs and the scalar 3. -/
theorem C18_linear_witness :
    ∃ rx ry rs rc, cxvec_convolve 1 (scenario_in 0) (scenario_taps 1) scenario_out = some rx
      ∧ cxvec_convolve 1 (scenario_in2 0) (scenario_taps 1) scenario_out = some ry
      ∧ cxvec_convolve 1 ((scenario_in 0).add (scenario_in2 0)) (scenario_taps 1) scenario_out
          = some rs
      ∧ cxvec_convolve 1 ((scenario_in 0).scale 3) (scenario_taps 1) scenario_out = some rc
      ∧ ∀ i : Int, 0 ≤ i → i < scenario_out.len →
          ∃ a b, rx.out.data i = some a ∧ ry.out.data i = some b
            ∧ rs.out.data i = some (a.add b) ∧ rc.out.data i = some (a.scale 3) :=
  C18_linear 1 (scenario_in 0) (scenario_in2 0) (scenario_taps 1) scenario_out 3
    (by decide) (by decide) (by decide) (by decide) (by decide) (by decide) (by decide)
    (by decide) (by decide) (by decide) (by decide)

/-! ## Non-finite samples -/

/-- On finite values the `float` kernel step is the exact kernel step. -/
theorem mac_real_ofFinite (x h y : cmplx) :
    IEEE.mac_real (IEEE.ofFinite x) (IEEE.ofFinite h) (IEEE.ofFinite y)
      = IEEE.ofFinite (mac_real x h y) := by
  simp [IEEE.mac_real, IEEE.ofFinite, mac_real, IEEE.float.add, IEEE.float.mul]

/-- C9 (refuted as stated): with the single tap `+inf` (flagged `REAL_ONLY`)
and the impulse input `1, 0` at `p = 0`, the call succeeds and leaves NaN in
`out[1]`, an index away from the impulse where the statement asks for
`(0, 0)`: the code computes `0 + 0 * inf`. -/
theorem C9_infinite_tap_counterexample :
    ∃ r, IEEE.cxvec_convolve 1
          ⟨2, 0, 0, [⟨.fin 1, .fin 0⟩, ⟨.fin 0, .fin 0⟩]⟩
          ⟨1, 1, 0, [⟨.inf false, .fin 0⟩]⟩
          ⟨2, 0, 0, [⟨.fin 7, .fin 7⟩, ⟨.fin 7, .fin 7⟩]⟩ = some r
      ∧ r.out.data 1 = some ⟨.nan, .nan⟩
      ∧ r.out.data 1 ≠ some ⟨.fin 0, .fin 0⟩ := by
  refine ⟨⟨2, ⟨2, 0, 0, [⟨.inf false, .nan⟩, ⟨.nan, .nan⟩]⟩, []⟩, ?_, ?_, ?_⟩
  · simp [IEEE.cxvec_convolve, IEEE.cxvec.memset0, List.range_succ, IEEE.convolve_step,
      IEEE.cxvec.data, IEEE.cxvec.store, IEEE.mac_real_vec_n, IEEE.mac_real,
      IEEE.float.add, IEEE.float.mul]
  · simp [IEEE.cxvec.data]
  · simp [IEEE.cxvec.data]

/-- C11 (refuted as stated): with the single tap `0` (flagged `REAL_ONLY`)
and the one input sample `+inf + 2i`, the call succeeds and leaves
`(NaN, 0)` in `out[0]`, not `(0, 0)`: the code computes `0 + inf * 0`. -/
theorem C11_infinite_input_counterexample :
    ∃ r, IEEE.cxvec_convolve 1
          ⟨1, 0, 0, [⟨.inf false, .fin 2⟩]⟩
          ⟨1, 1, 0, [⟨.fin 0, .fin 0⟩]⟩
          ⟨1, 0, 0, [⟨.fin 7, .fin 7⟩]⟩ = some r
      ∧ r.out.data 0 = some ⟨.nan, .fin 0⟩
      ∧ r.out.data 0 ≠ some ⟨.fin 0, .fin 0⟩ := by
  refine ⟨⟨1, ⟨1, 0, 0, [⟨.nan, .fin 0⟩]⟩, []⟩, ?_, ?_, ?_⟩
  · simp [IEEE.cxvec_convolve, IEEE.cxvec.memset0, List.range_succ, IEEE.convolve_step,
      IEEE.cxvec.data, IEEE.cxvec.store, IEEE.mac_real_vec_n, IEEE.mac_real,
      IEEE.float.add, IEEE.float.mul]
  · simp [IEEE.cxvec.data]
  · simp [IEEE.cxvec.data]

end Convolve
